/-
Verification development for the VoxelCraft voxel sandbox
(src/app/components/VoxelWorld.tsx).

The TypeScript component is embedded shallowly:
  * machine floats become exact rationals (ℚ);
  * the JS `Map<string, VoxelRegistryEntry>` voxel registry becomes an
    association list `List (String × VoxelEntry)` with JS `Map` semantics
    (`has` / `get` / `set` / `delete` / `size`);
  * the three.js scene is abstracted to the list of voxel positions of the
    meshes it holds; render-only resources (geometry and material buffers,
    shadows) are dropped, keeping the logical `materialKey` tag;
  * the ray cast performed by the external three.js `Raycaster` is
    abstracted to its result, an optional hit carrying the struck object's
    `userData.position` and the (optional) intersection face normal;
  * the render loop becomes a step function over a trace of timed events
    (animation frames and mouse interactions), which records every
    publication made to the UI overlay (the telemetry sink).
-/
import Mathlib

/-! ## Constants of VoxelWorld.tsx (lines 9-13) -/

def MOVE_SPEED : ℚ := 12

def SPRINT_MULTIPLIER : ℚ := 21 / 10

def GRAVITY : ℚ := 30

def JUMP_FORCE : ℚ := 12

def TERMINAL_VELOCITY : ℚ := 48

/-! ## Spatial key codec

`keyFromPosition` and `generateTerrain` are imported from
`src/lib/voxelWorld.ts`, a repository file that is not present under `src/`.
The codec is therefore modelled from the spec. -/

/-- Decimal digit list of a natural number, most significant first
(`[]` for `0`).  A structural fuel argument (`fuel ≥ n` suffices) keeps the
definition reducible by the kernel. -/
def natDigsAux (fuel : Nat) (n : Nat) : List Char :=
  match fuel with
  | 0 => []
  | fuel' + 1 => if n = 0 then [] else natDigsAux fuel' (n / 10) ++ [Nat.digitChar (n % 10)]

def natDigs (n : Nat) : List Char :=
  natDigsAux n n

/-- Decimal string of a natural number. -/
def natStr (n : Nat) : String :=
  if n = 0 then "0" else String.mk (natDigs n)

/-- Decimal string of an integer, with a leading minus sign when negative —
the way JS stringifies an integral number. -/
def intStr (i : Int) : String :=
  if i < 0 then "-" ++ natStr i.natAbs else natStr i.toNat

/-- Modelled from the spec: `keyFromPosition` lives in
`src/lib/voxelWorld.ts`, which is absent from `src/`.  The spec canonicalizes
a grid coordinate to a string key by deterministic comma-separated
concatenation (`"x,y,z"`). -/
def keyFromPosition (x y z : Int) : String :=
  intStr x ++ ("," ++ (intStr y ++ ("," ++ intStr z)))

/-- Numeric value of a decimal digit character. -/
def digVal (c : Char) : Nat :=
  c.toNat - '0'.toNat

/-- Value of a most-significant-first digit list. -/
def digsVal (l : List Char) : Nat :=
  l.foldl (fun a c => 10 * a + digVal c) 0

/-! ## Voxel world data model -/

/-- Integer grid vector: a voxel position or a cube face normal. -/
structure IVec3 where
  x : Int
  y : Int
  z : Int
deriving DecidableEq, Repr

/-- Logical part of a `VoxelRegistryEntry` (VoxelWorld.tsx lines 77-82):
the render-resource handles (`mesh`, `geometry`, `material`) are owned
drawing state with no logical content, so only the `materialKey` tag is
kept. -/
structure VoxelEntry where
  materialKey : String
deriving DecidableEq, Repr

/-- World state touched by `interactWithVoxel`: the voxel registry
(`voxelsRef`, a JS `Map` keyed by `keyFromPosition`) and the scene,
abstracted to the positions of the voxel meshes it holds. -/
structure WorldState where
  registry : List (String × VoxelEntry)
  scene : List IVec3
deriving DecidableEq, Repr

/-- JS `Map.has`. -/
def mapHas (m : List (String × VoxelEntry)) (k : String) : Bool :=
  m.any (fun p => p.1 = k)

/-- JS `Map.get` (`none` for a miss). -/
def mapGet (m : List (String × VoxelEntry)) (k : String) : Option VoxelEntry :=
  (m.find? (fun p => p.1 = k)).map (fun p => p.2)

/-- JS `Map.set`: replace in place when the key is present, append
otherwise. -/
def mapSet (m : List (String × VoxelEntry)) (k : String) (v : VoxelEntry) :
    List (String × VoxelEntry) :=
  if mapHas m k then m.map (fun p => if p.1 = k then (k, v) else p) else m ++ [(k, v)]

/-- JS `Map.delete`: drop the entries stored under the key. -/
def mapDelete (m : List (String × VoxelEntry)) (k : String) :
    List (String × VoxelEntry) :=
  m.filter (fun p => ¬ p.1 = k)

/-- The two mouse interaction modes (right click adds, left click
removes). -/
inductive EditMode where
  | add
  | remove
deriving DecidableEq, Repr

/-- Result of the raycast: the nearest intersection tagged
`userData.isVoxel`, carrying the struck object's `userData.position` and the
intersection's face normal (`none` when the intersection has no face
record). -/
structure RayHit where
  face : Option IVec3
  pos : IVec3
deriving DecidableEq, Repr

/-- `interactWithVoxel` (VoxelWorld.tsx lines 37-86), given the raycast
result.  The returned `Bool` records whether `setBlockCount` was invoked,
i.e. whether the block count was published to the overlay. -/
def interactWithVoxelP (mode : EditMode) (hit : Option RayHit) (w : WorldState) :
    WorldState × Bool :=
  match hit with
  | none => (w, false)
  | some h =>
    match mode with
    | .remove =>
      let p := h.pos
      let key := keyFromPosition p.x p.y p.z
      if p.y ≤ 0 then (w, false)
      else ({ registry := mapDelete w.registry key, scene := w.scene.erase p }, true)
    | .add =>
      match h.face with
      | none => (w, false)
      | some n =>
        let target : IVec3 := ⟨h.pos.x + n.x, h.pos.y + n.y, h.pos.z + n.z⟩
        let key := keyFromPosition target.x target.y target.z
        if mapHas w.registry key then (w, false)
        else
          let entry := mapGet w.registry (keyFromPosition h.pos.x h.pos.y h.pos.z)
          let mk := ((entry.map VoxelEntry.materialKey).getD "grass")
          ({ registry := mapSet w.registry key ⟨mk⟩, scene := w.scene ++ [target] }, true)

/-- `interactWithVoxel` as a pure transformation of the world state. -/
def interactWithVoxel (mode : EditMode) (hit : Option RayHit) (w : WorldState) :
    WorldState :=
  (interactWithVoxelP mode hit w).1

/-! ## Movement integrator -/

/-- State read and written by `updateMovement`: the velocity vector
(`velocityRef`), the camera's world Y, and the accumulated displacement
along the camera-local right/forward axes (`controls.moveRight` /
`controls.moveForward` move along those axes; their direction in world
space depends on the look orientation, which no claim needs). -/
structure MoveState where
  vx : ℚ
  vy : ℚ
  vz : ℚ
  camY : ℚ
  dispRight : ℚ
  dispForward : ℚ
deriving DecidableEq, Repr

/-- `updateMovement` (VoxelWorld.tsx lines 88-128).  `intent` is the
normalized horizontal input direction built from the held WASD keys
(`direction.normalize()`; normalizing a diagonal direction yields the
irrational ±√2⁄2 components, so the normalized intent is a parameter here),
`sprint` tells whether a Shift key is held. -/
def updateMovement (intent : ℚ × ℚ) (sprint : Bool) (delta : ℚ) (st : MoveState) :
    MoveState :=
  let speed := MOVE_SPEED * (if sprint then SPRINT_MULTIPLIER else 1)
  let vx1 := if 0 < intent.1 ^ 2 + intent.2 ^ 2 then st.vx - intent.1 * speed * delta else st.vx
  let vz1 := if 0 < intent.1 ^ 2 + intent.2 ^ 2 then st.vz - intent.2 * speed * delta else st.vz
  let vy1 := max (st.vy - GRAVITY * delta) (-TERMINAL_VELOCITY)
  let dispRight1 := st.dispRight + (-vx1 * delta)
  let dispForward1 := st.dispForward + (-vz1 * delta)
  let camY1 := st.camY + vy1 * delta
  let vy2 := if camY1 < 3 then 0 else vy1
  let camY2 := if camY1 < 3 then 3 else camY1
  let vx2 := vx1 - vx1 * 8 * delta
  let vz2 := vz1 - vz1 * 8 * delta
  { vx := vx2, vy := vy2, vz := vz2, camY := camY2,
    dispRight := dispRight1, dispForward := dispForward1 }

/-- Vertical projection of one movement tick: gravity integration with
terminal-velocity cap, displacement, floor clamp (VoxelWorld.tsx lines
115-124), on a `(velocity.y, camera.position.y)` pair. -/
def vstep (delta : ℚ) : ℚ × ℚ → ℚ × ℚ
  | (v, y) =>
    let v1 := max (v - GRAVITY * delta) (-TERMINAL_VELOCITY)
    let y1 := y + v1 * delta
    if y1 < 3 then (0, 3) else (v1, y1)

/-! ## Input handling -/

/-- JS `Set.add` on the held-key set. -/
def keysAdd (code : String) (keys : List String) : List String :=
  if code ∈ keys then keys else code :: keys

/-- `onKeyDown` (VoxelWorld.tsx lines 200-205): record the key as held;
if the key is Space and the vertical velocity is near rest
(`|velocity.y| < 0.05`), set the vertical velocity to the jump force. -/
def onKeyDown (code : String) (keys : List String) (vy : ℚ) : List String × ℚ :=
  (keysAdd code keys,
   if code = "Space" ∧ |vy| < 1 / 20 then JUMP_FORCE else vy)

/-! ## Frame loop and telemetry -/

/-- Delta clamp at the top of `animate` (VoxelWorld.tsx line 233):
`Math.min(clock.getDelta(), 0.05)`. -/
def animateDelta (rawDelta : ℚ) : ℚ :=
  min rawDelta (1 / 20)

/-- A publication to the telemetry sink (the stats overlay). -/
inductive TelemetryPub where
  | stats (now : ℚ) (fps : ℤ)
  | blocks (now : ℚ) (count : Nat)
deriving DecidableEq, Repr

/-- A timed external event driving the component: an animation-frame
callback (with the raw clock delta and the current input intent), or a
mouse click routed to `interactWithVoxel`. -/
inductive SysEvent where
  | frame (now : ℚ) (rawDelta : ℚ) (intent : ℚ × ℚ) (sprint : Bool)
  | click (now : ℚ) (mode : EditMode) (hit : Option RayHit)
deriving DecidableEq, Repr

/-- Component state threaded through the event trace: `lastFrameRef`, the
movement state, the world state, and the record of telemetry publications,
newest first. -/
structure SysState where
  lastFrame : ℚ
  move : MoveState
  world : WorldState
  pubs : List TelemetryPub
deriving DecidableEq, Repr

/-- One event step.  A frame runs `updateMovement` on the clamped delta and,
when at least 250ms have elapsed since `lastFrameRef`, publishes the
FPS/position stats and resets `lastFrameRef` (VoxelWorld.tsx lines 232-248).
A click runs `interactWithVoxel`, which publishes the block count exactly
when the edit succeeds (lines 57 and 83). -/
def stepEvent (st : SysState) (e : SysEvent) : SysState :=
  match e with
  | .frame now rawDelta intent sprint =>
    let delta := animateDelta rawDelta
    let move := updateMovement intent sprint delta st.move
    if 250 ≤ now - st.lastFrame then
      { st with
          move := move
          lastFrame := now
          pubs := .stats now (round (1 / delta)) :: st.pubs }
    else { st with move := move }
  | .click now mode hit =>
    let r := interactWithVoxelP mode hit st.world
    if r.2 then
      { st with world := r.1, pubs := .blocks now r.1.registry.length :: st.pubs }
    else { st with world := r.1 }

/-- Run a trace of events. -/
def runTrace (st : SysState) (es : List SysEvent) : SysState :=
  es.foldl stepEvent st

/-- Timestamps of the FPS/position stats publications, newest first. -/
def statsTimes : List TelemetryPub → List ℚ
  | [] => []
  | .stats t _ :: rest => t :: statsTimes rest
  | .blocks _ _ :: rest => statsTimes rest

/-- In a newest-first list of publication timestamps, each publication
happened at least 250ms after the one before it. -/
def StatsGapsOK : List ℚ → Prop
  | [] => True
  | [_] => True
  | a :: b :: rest => b + 250 ≤ a ∧ StatsGapsOK (b :: rest)

/-! ## Helper lemmas: the key codec -/

lemma digitChar_spec (d : Nat) (hd : d < 10) :
    digVal (Nat.digitChar d) = d ∧ Nat.digitChar d ≠ ',' ∧ Nat.digitChar d ≠ '-' := by
  interval_cases d <;> exact ⟨by decide, by decide, by decide⟩

lemma digsVal_append (l : List Char) (c : Char) :
    digsVal (l ++ [c]) = 10 * digsVal l + digVal c := by
  simp [digsVal, List.foldl_append]

lemma digsVal_natDigsAux : ∀ (fuel n : Nat), n ≤ fuel → digsVal (natDigsAux fuel n) = n := by
  intro fuel
  induction fuel with
  | zero =>
    intro n hn
    interval_cases n
    rfl
  | succ f ih =>
    intro n hn
    by_cases h0 : n = 0
    · subst h0
      rfl
    · have hlt : n / 10 < n := Nat.div_lt_self (Nat.pos_of_ne_zero h0) (by norm_num)
      have hle : n / 10 ≤ f := by omega
      have hmod : n % 10 < 10 := Nat.mod_lt n (by norm_num)
      calc digsVal (natDigsAux (f + 1) n)
          = digsVal (natDigsAux f (n / 10) ++ [Nat.digitChar (n % 10)]) := by
            simp [natDigsAux, h0]
        _ = 10 * digsVal (natDigsAux f (n / 10)) + digVal (Nat.digitChar (n % 10)) :=
            digsVal_append _ _
        _ = 10 * (n / 10) + n % 10 := by rw [ih _ hle, (digitChar_spec _ hmod).1]
        _ = n := by omega

lemma natDigsAux_chars : ∀ (fuel n : Nat) (c : Char),
    c ∈ natDigsAux fuel n → c ≠ ',' ∧ c ≠ '-' := by
  intro fuel
  induction fuel with
  | zero =>
    intro n c hc
    simp [natDigsAux] at hc
  | succ f ih =>
    intro n c hc
    by_cases h0 : n = 0
    · subst h0
      simp [natDigsAux] at hc
    · simp only [natDigsAux, h0, if_false, List.mem_append, List.mem_singleton] at hc
      rcases hc with hc | hc
      · exact ih _ _ hc
      · have hmod : n % 10 < 10 := Nat.mod_lt n (by norm_num)
        exact ⟨hc ▸ (digitChar_spec _ hmod).2.1, hc ▸ (digitChar_spec _ hmod).2.2⟩

lemma digsVal_natDigs (n : Nat) : digsVal (natDigs n) = n :=
  digsVal_natDigsAux n n le_rfl

lemma natDigs_inj {m n : Nat} (h : natDigs m = natDigs n) : m = n := by
  have := congrArg digsVal h
  rwa [digsVal_natDigs, digsVal_natDigs] at this

lemma natDigs_chars {n : Nat} {c : Char} (hc : c ∈ natDigs n) : c ≠ ',' ∧ c ≠ '-' :=
  natDigsAux_chars n n c hc

lemma str_data_append (s t : String) : (s ++ t).data = s.data ++ t.data := by
  cases s
  cases t
  rfl

lemma str_ext {s t : String} (h : s.data = t.data) : s = t := by
  cases s
  cases t
  exact congrArg String.mk h

lemma natStr_inj {m n : Nat} (h : natStr m = natStr n) : m = n := by
  have hd := congrArg String.data h
  by_cases hm : m = 0 <;> by_cases hn : n = 0
  · omega
  · exfalso
    simp only [natStr, hm, hn, if_true, if_false] at hd
    have : digsVal (natDigs n) = digsVal ['0'] := by rw [← hd]
    rw [digsVal_natDigs] at this
    exact hn (by simpa [digsVal, digVal] using this)
  · exfalso
    simp only [natStr, hm, hn, if_true, if_false] at hd
    have : digsVal (natDigs m) = digsVal ['0'] := by rw [hd]
    rw [digsVal_natDigs] at this
    exact hm (by simpa [digsVal, digVal] using this)
  · simp only [natStr, hm, hn, if_false] at hd
    exact natDigs_inj hd

lemma natStr_chars {n : Nat} {c : Char} (hc : c ∈ (natStr n).data) : c ≠ ',' ∧ c ≠ '-' := by
  by_cases h0 : n = 0
  · subst h0
    simp only [natStr, if_true] at hc
    have : c = '0' := by simpa using hc
    exact ⟨this ▸ (by decide), this ▸ (by decide)⟩
  · simp only [natStr, h0, if_false] at hc
    exact natDigs_chars hc

lemma natStr_data_ne_nil (n : Nat) : (natStr n).data ≠ [] := by
  by_cases h0 : n = 0
  · subst h0
    simp [natStr]
  · simp only [natStr, h0, if_false]
    cases n with
    | zero => exact absurd rfl h0
    | succ m =>
      show natDigsAux (m + 1) (m + 1) ≠ []
      simp [natDigsAux]

lemma intStr_data_comma (i : Int) : ',' ∉ (intStr i).data := by
  intro hc
  unfold intStr at hc
  split at hc
  · rw [str_data_append] at hc
    rcases List.mem_append.mp hc with hc | hc
    · simp at hc
    · exact (natStr_chars hc).1 rfl
  · exact (natStr_chars hc).1 rfl

lemma intStr_inj {i j : Int} (h : intStr i = intStr j) : i = j := by
  have hd := congrArg String.data h
  unfold intStr at hd
  by_cases hi : i < 0 <;> by_cases hj : j < 0 <;>
    simp only [hi, hj, if_true, if_false] at hd
  · rw [str_data_append, str_data_append] at hd
    have : (natStr i.natAbs).data = (natStr j.natAbs).data := by simpa using hd
    have := natStr_inj (str_ext this)
    omega
  · exfalso
    rw [str_data_append] at hd
    have hmem : '-' ∈ (natStr j.toNat).data := by
      rw [← hd]
      simp
    exact (natStr_chars hmem).2 rfl
  · exfalso
    rw [str_data_append] at hd
    have hmem : '-' ∈ (natStr i.toNat).data := by
      rw [hd]
      simp
    exact (natStr_chars hmem).2 rfl
  · have := natStr_inj (str_ext hd)
    omega

lemma append_comma_inj : ∀ (l₁ l₂ r₁ r₂ : List Char), ',' ∉ l₁ → ',' ∉ l₂ →
    l₁ ++ ',' :: r₁ = l₂ ++ ',' :: r₂ → l₁ = l₂ ∧ r₁ = r₂ := by
  intro l₁
  induction l₁ with
  | nil =>
    intro l₂ r₁ r₂ h₁ h₂ h
    cases l₂ with
    | nil => simpa using h
    | cons b bs =>
      exfalso
      simp only [List.nil_append, List.cons_append, List.cons.injEq] at h
      exact h₂ (h.1 ▸ List.mem_cons_self b bs)
  | cons a as ih =>
    intro l₂ r₁ r₂ h₁ h₂ h
    cases l₂ with
    | nil =>
      exfalso
      simp only [List.nil_append, List.cons_append, List.cons.injEq] at h
      exact h₁ (h.1 ▸ List.mem_cons_self a as)
    | cons b bs =>
      simp only [List.cons_append, List.cons.injEq] at h
      obtain ⟨rfl, h'⟩ := h
      have h₁' : ',' ∉ as := fun hm => h₁ (List.mem_cons_of_mem a hm)
      have h₂' : ',' ∉ bs := fun hm => h₂ (List.mem_cons_of_mem a hm)
      obtain ⟨he, hr⟩ := ih bs r₁ r₂ h₁' h₂' h'
      exact ⟨by rw [he], hr⟩

lemma keyFromPosition_data (x y z : Int) :
    (keyFromPosition x y z).data =
      (intStr x).data ++ ',' :: ((intStr y).data ++ ',' :: (intStr z).data) := by
  show (intStr x ++ ("," ++ (intStr y ++ ("," ++ intStr z)))).data = _
  rw [str_data_append, str_data_append, str_data_append, str_data_append]
  rfl

/-- C8: the spatial key codec `keyFromPosition` is pure and deterministic (it
is a function), and injective over the integers: two coordinates are equal
iff their encoded keys are equal — the comma delimiters rule out collisions
from the string concatenation. -/
theorem keyFromPosition_inj (x y z x' y' z' : Int) :
    keyFromPosition x y z = keyFromPosition x' y' z' ↔ (x = x' ∧ y = y' ∧ z = z') := by
  constructor
  · intro h
    have hd := congrArg String.data h
    rw [keyFromPosition_data, keyFromPosition_data] at hd
    obtain ⟨h1, h2⟩ :=
      append_comma_inj _ _ _ _ (intStr_data_comma x) (intStr_data_comma x') hd
    obtain ⟨h3, h4⟩ :=
      append_comma_inj _ _ _ _ (intStr_data_comma y) (intStr_data_comma y') h2
    exact ⟨intStr_inj (str_ext h1), intStr_inj (str_ext h3), intStr_inj (str_ext h4)⟩
  · rintro ⟨rfl, rfl, rfl⟩
    rfl

/-! ## Claim theorems: editing -/

/-- C1: an add interaction hitting a voxel at integer coordinate (x,y,z)
with face normal (0,1,0) creates a voxel at exactly (x,y+1,z), inserting it
into the registry (with the material inherited from the source voxel, or
the default "grass" on a look-up miss) and a mesh into the scene; if the
target cell is already occupied in the registry, the add is a no-op and the
world — in particular the registry — is unchanged. -/
theorem interact_add_adjacent (x y z : Int) (w : WorldState) :
    interactWithVoxel .add (some ⟨some ⟨0, 1, 0⟩, ⟨x, y, z⟩⟩) w =
      (if mapHas w.registry (keyFromPosition x (y + 1) z) then w
       else { registry := mapSet w.registry (keyFromPosition x (y + 1) z)
                ⟨((mapGet w.registry (keyFromPosition x y z)).map
                    VoxelEntry.materialKey).getD "grass"⟩
              scene := w.scene ++ [⟨x, y + 1, z⟩] }) := by
  simp only [interactWithVoxel, interactWithVoxelP, add_zero]
  split <;> rfl

/-- C2: a remove interaction whose hit voxel has Y ≤ 0 is a no-op — the
world, in particular the registry and its size, is unchanged; for Y > 0 the
record under the hit voxel's key is deleted from the registry and the mesh
from the scene. -/
theorem interact_remove_floor_guard (f : Option IVec3) (x y z : Int) (w : WorldState) :
    interactWithVoxel .remove (some ⟨f, ⟨x, y, z⟩⟩) w =
      (if y ≤ 0 then w
       else { registry := mapDelete w.registry (keyFromPosition x y z)
              scene := w.scene.erase ⟨x, y, z⟩ }) := by
  simp only [interactWithVoxel, interactWithVoxelP]
  split <;> rfl

/-- C10: in add mode, a hit on a voxel-tagged object whose intersection
carries no face record is a no-op: registry and scene are left unchanged and
no voxel is created. -/
theorem interact_add_missing_face_noop (x y z : Int) (w : WorldState) :
    interactWithVoxel .add (some ⟨none, ⟨x, y, z⟩⟩) w = w := rfl

/-! ## Claim theorems: movement -/

/-- C3: each tick first sets velocity.y to
max(velocity.y − gravity·Δt, −terminalVelocity) with gravity = 30 and
terminal velocity = 48, applies velocity.y·Δt to the camera's Y, and then,
if the resulting Y is below the floor height 3, zeroes velocity.y and snaps
Y to exactly the floor height. -/
theorem updateMovement_vertical_spec (intent : ℚ × ℚ) (sprint : Bool) (delta : ℚ)
    (st : MoveState) :
    GRAVITY = 30 ∧ TERMINAL_VELOCITY = 48 ∧
    (updateMovement intent sprint delta st).vy =
      (if st.camY + max (st.vy - GRAVITY * delta) (-TERMINAL_VELOCITY) * delta < 3 then 0
       else max (st.vy - GRAVITY * delta) (-TERMINAL_VELOCITY)) ∧
    (updateMovement intent sprint delta st).camY =
      (if st.camY + max (st.vy - GRAVITY * delta) (-TERMINAL_VELOCITY) * delta < 3 then 3
       else st.camY + max (st.vy - GRAVITY * delta) (-TERMINAL_VELOCITY) * delta) := by
  exact ⟨rfl, rfl, rfl, rfl⟩

/-- C5: a Space keypress while |velocity.y| is above the at-rest threshold
0.05 leaves the velocity unchanged; at |velocity.y| below the threshold it
sets velocity.y to exactly the jump force 12. -/
theorem jump_only_at_rest (keys : List String) (vy : ℚ) :
    JUMP_FORCE = 12 ∧
    (1 / 20 < |vy| → (onKeyDown "Space" keys vy).2 = vy) ∧
    (|vy| < 1 / 20 → (onKeyDown "Space" keys vy).2 = JUMP_FORCE) := by
  refine ⟨rfl, fun h => ?_, fun h => ?_⟩
  · have h' : ¬ (|vy| < 1 / 20) := not_lt.mpr h.le
    simp only [onKeyDown]
    split
    · next hcond => exact absurd hcond.2 h'
    · rfl
  · simp only [onKeyDown]
    split
    · rfl
    · next hcond => exact absurd ⟨trivial, h⟩ hcond

theorem jump_only_at_rest_witness :
    ((1:ℚ) / 20 < |(5:ℚ)| ∧ (onKeyDown "Space" [] 5).2 = 5) ∧
    (|(0:ℚ)| < 1 / 20 ∧ (onKeyDown "Space" [] 0).2 = JUMP_FORCE) :=
  ⟨⟨by norm_num, (jump_only_at_rest [] 5).2.1 (by norm_num)⟩,
   ⟨by norm_num, (jump_only_at_rest [] 0).2.2 (by norm_num)⟩⟩

/-- C6: each tick computes speed = baseSpeed · (sprintMultiplier if sprint
else 1) with baseSpeed = 12 and sprintMultiplier = 2.1; with a non-zero
normalized intent direction it injects velocity.{x,z} -= intent · speed · Δt,
and after the displacement it damps velocity.{x,z} -= velocity.{x,z} · 8 · Δt. -/
theorem updateMovement_horizontal_spec (intent : ℚ × ℚ) (sprint : Bool) (delta : ℚ)
    (st : MoveState) (h : 0 < intent.1 ^ 2 + intent.2 ^ 2) :
    MOVE_SPEED = 12 ∧ SPRINT_MULTIPLIER = 21 / 10 ∧
    (updateMovement intent sprint delta st).vx =
      (st.vx - intent.1 * (MOVE_SPEED * (if sprint then SPRINT_MULTIPLIER else 1)) * delta) -
        (st.vx - intent.1 * (MOVE_SPEED * (if sprint then SPRINT_MULTIPLIER else 1)) * delta)
          * 8 * delta ∧
    (updateMovement intent sprint delta st).vz =
      (st.vz - intent.2 * (MOVE_SPEED * (if sprint then SPRINT_MULTIPLIER else 1)) * delta) -
        (st.vz - intent.2 * (MOVE_SPEED * (if sprint then SPRINT_MULTIPLIER else 1)) * delta)
          * 8 * delta := by
  refine ⟨rfl, rfl, ?_, ?_⟩ <;>
    simp only [updateMovement, if_pos h]

theorem updateMovement_horizontal_spec_witness :
    (0:ℚ) < ((1:ℚ), (0:ℚ)).1 ^ 2 + ((1:ℚ), (0:ℚ)).2 ^ 2 ∧
    (MOVE_SPEED = 12 ∧ SPRINT_MULTIPLIER = 21 / 10 ∧
     (updateMovement (1, 0) false (1 / 100) (MoveState.mk 0 0 0 5 0 0)).vx =
       ((MoveState.mk 0 0 0 5 0 0).vx -
           ((1:ℚ), (0:ℚ)).1 * (MOVE_SPEED * (if false then SPRINT_MULTIPLIER else 1)) * (1 / 100)) -
         ((MoveState.mk 0 0 0 5 0 0).vx -
             ((1:ℚ), (0:ℚ)).1 * (MOVE_SPEED * (if false then SPRINT_MULTIPLIER else 1)) * (1 / 100))
           * 8 * (1 / 100) ∧
     (updateMovement (1, 0) false (1 / 100) (MoveState.mk 0 0 0 5 0 0)).vz =
       ((MoveState.mk 0 0 0 5 0 0).vz -
           ((1:ℚ), (0:ℚ)).2 * (MOVE_SPEED * (if false then SPRINT_MULTIPLIER else 1)) * (1 / 100)) -
         ((MoveState.mk 0 0 0 5 0 0).vz -
             ((1:ℚ), (0:ℚ)).2 * (MOVE_SPEED * (if false then SPRINT_MULTIPLIER else 1)) * (1 / 100))
           * 8 * (1 / 100)) :=
  ⟨by norm_num,
   updateMovement_horizontal_spec (1, 0) false (1 / 100) (MoveState.mk 0 0 0 5 0 0) (by norm_num)⟩

/-- C9: the elapsed time handed to the movement integrator on a frame tick
is the clock delta clamped to at most 50ms (0.05s = 1⁄20), whatever real
time elapsed. -/
theorem animate_delta_clamped (rawDelta now : ℚ) (intent : ℚ × ℚ) (sprint : Bool)
    (st : SysState) :
    animateDelta rawDelta ≤ 1 / 20 ∧
    (stepEvent st (.frame now rawDelta intent sprint)).move =
      updateMovement intent sprint (animateDelta rawDelta) st.move := by
  refine ⟨min_le_right _ _, ?_⟩
  simp only [stepEvent]
  split <;> rfl

/-! ## Claim theorems: convergence of the floor clamp -/


lemma vstep_pair (delta v y : ℚ) :
    vstep delta (v, y) =
      (if y + max (v - GRAVITY * delta) (-TERMINAL_VELOCITY) * delta < 3 then (0, 3)
       else (max (v - GRAVITY * delta) (-TERMINAL_VELOCITY),
             y + max (v - GRAVITY * delta) (-TERMINAL_VELOCITY) * delta)) := rfl

lemma vstep_fixed (delta : ℚ) (hd : 0 < delta) : vstep delta (0, 3) = (0, 3) := by
  rw [vstep_pair]
  have h1 : max ((0:ℚ) - GRAVITY * delta) (-TERMINAL_VELOCITY) < 0 := by
    apply max_lt
    · simp only [GRAVITY]
      nlinarith
    · norm_num [TERMINAL_VELOCITY]
  have h2 : (3:ℚ) + max ((0:ℚ) - GRAVITY * delta) (-TERMINAL_VELOCITY) * delta < 3 := by
    nlinarith
  rw [if_pos h2]

lemma vstep_fixed_iter (delta : ℚ) (hd : 0 < delta) :
    ∀ m : ℕ, (vstep delta)^[m] (0, 3) = (0, 3) := by
  intro m
  induction m with
  | zero => rfl
  | succ k ih => rw [Function.iterate_succ_apply', ih, vstep_fixed delta hd]

lemma vstep_progress (delta : ℚ) (hd : 0 < delta) (hdu : delta ≤ 1 / 20) (v y : ℚ)
    (hv : v ≤ 0) :
    vstep delta (v, y) = (0, 3) ∨
      ((vstep delta (v, y)).1 ≤ 0 ∧ 3 ≤ (vstep delta (v, y)).2 ∧
        (vstep delta (v, y)).2 ≤ y - 30 * delta ^ 2) := by
  have hv1 : max (v - GRAVITY * delta) (-TERMINAL_VELOCITY) ≤ -(30 * delta) := by
    apply max_le
    · simp only [GRAVITY]
      linarith
    · simp only [TERMINAL_VELOCITY]
      linarith
  rw [vstep_pair]
  by_cases hc : y + max (v - GRAVITY * delta) (-TERMINAL_VELOCITY) * delta < 3
  · left
    rw [if_pos hc]
  · right
    rw [if_neg hc]
    refine ⟨by nlinarith, by dsimp only; linarith [not_lt.mp hc], ?_⟩
    dsimp only
    have : max (v - GRAVITY * delta) (-TERMINAL_VELOCITY) * delta ≤ -(30 * delta) * delta :=
      mul_le_mul_of_nonneg_right hv1 hd.le
    nlinarith

lemma vstep_reaches (delta : ℚ) (hd : 0 < delta) (hdu : delta ≤ 1 / 20) :
    ∀ (n : ℕ) (v y : ℚ), v ≤ 0 → 3 ≤ y → y ≤ 3 + 30 * delta ^ 2 * n →
      (vstep delta)^[n + 1] (v, y) = (0, 3) := by
  intro n
  induction n with
  | zero =>
    intro v y hv hy3 hyb
    have hy : y = 3 := by
      push_cast at hyb
      linarith
    subst hy
    rcases vstep_progress delta hd hdu v 3 hv with h | ⟨h1, h2, h3⟩
    · simpa using h
    · exfalso
      nlinarith
  | succ m ih =>
    intro v y hv hy3 hyb
    rw [Function.iterate_succ_apply]
    rcases vstep_progress delta hd hdu v y hv with h | ⟨h1, h2, h3⟩
    · rw [h]
      exact vstep_fixed_iter delta hd (m + 1)
    · have hb : (vstep delta (v, y)).2 ≤ 3 + 30 * delta ^ 2 * m := by
        push_cast at hyb ⊢
        nlinarith
      have := ih (vstep delta (v, y)).1 (vstep delta (v, y)).2 h1 h2 hb
      simpa using this

lemma updateMovement_vert_proj (intent : ℚ × ℚ) (sprint : Bool) (delta : ℚ) (st : MoveState) :
    ((updateMovement intent sprint delta st).vy, (updateMovement intent sprint delta st).camY)
      = vstep delta (st.vy, st.camY) := by
  rw [vstep_pair]
  simp only [updateMovement]
  split <;> rfl

lemma updateMovement_vert_proj_iter (intent : ℚ × ℚ) (sprint : Bool) (delta : ℚ) :
    ∀ (n : ℕ) (st : MoveState),
      (((updateMovement intent sprint delta)^[n] st).vy,
       ((updateMovement intent sprint delta)^[n] st).camY)
        = (vstep delta)^[n] (st.vy, st.camY) := by
  intro n
  induction n with
  | zero => intro st; rfl
  | succ k ih =>
    intro st
    rw [Function.iterate_succ_apply', Function.iterate_succ_apply', ← ih st,
      updateMovement_vert_proj]

/-- C4: starting from any camera Y above the floor height 3 with
velocity.y = 0 and no jump input, iterating the per-tick movement update
with any fixed positive Δt within the 50ms clamp eventually brings the
camera Y to exactly the floor height with velocity.y = 0, and it stays
there on all later ticks. -/
theorem updateMovement_converges_to_floor (intent : ℚ × ℚ) (sprint : Bool) (delta : ℚ)
    (st : MoveState) (hd : 0 < delta) (hdu : delta ≤ 1 / 20) (hv : st.vy = 0)
    (hy : 3 < st.camY) :
    ∃ N : ℕ, ∀ n : ℕ, N ≤ n →
      ((updateMovement intent sprint delta)^[n] st).camY = 3 ∧
      ((updateMovement intent sprint delta)^[n] st).vy = 0 := by
  have hpos : (0:ℚ) < 30 * delta ^ 2 := by positivity
  obtain ⟨M, hM⟩ : ∃ M : ℕ, st.camY ≤ 3 + 30 * delta ^ 2 * M := by
    refine ⟨⌈(st.camY - 3) / (30 * delta ^ 2)⌉₊, ?_⟩
    have := Nat.le_ceil ((st.camY - 3) / (30 * delta ^ 2))
    rw [div_le_iff₀ hpos] at this
    linarith
  refine ⟨M + 1, fun n hn => ?_⟩
  obtain ⟨k, rfl⟩ := Nat.exists_eq_add_of_le hn
  have hreach : (vstep delta)^[M + 1] (st.vy, st.camY) = (0, 3) := by
    rw [hv]
    exact vstep_reaches delta hd hdu M 0 st.camY le_rfl hy.le hM
  have : (vstep delta)^[M + 1 + k] (st.vy, st.camY) = (0, 3) := by
    rw [Nat.add_comm, Function.iterate_add_apply, hreach, vstep_fixed_iter delta hd]
  have hproj := updateMovement_vert_proj_iter intent sprint delta (M + 1 + k) st
  rw [this] at hproj
  exact ⟨congrArg Prod.snd hproj, congrArg Prod.fst hproj⟩

theorem updateMovement_converges_to_floor_witness :
    (0:ℚ) < 1 / 20 ∧ (1:ℚ) / 20 ≤ 1 / 20 ∧ (MoveState.mk 0 0 0 4 0 0).vy = 0 ∧
    (3:ℚ) < (MoveState.mk 0 0 0 4 0 0).camY ∧
    ∃ N : ℕ, ∀ n : ℕ, N ≤ n →
      ((updateMovement (0, 0) false (1 / 20))^[n] (MoveState.mk 0 0 0 4 0 0)).camY = 3 ∧
      ((updateMovement (0, 0) false (1 / 20))^[n] (MoveState.mk 0 0 0 4 0 0)).vy = 0 :=
  ⟨by norm_num, le_refl _, rfl, by norm_num,
   updateMovement_converges_to_floor (0, 0) false (1 / 20) (MoveState.mk 0 0 0 4 0 0)
     (by norm_num) (le_refl _) rfl (by norm_num)⟩

/-! ## Claim theorems: telemetry throttling -/

/-- The newest stats publication, if any, happened no later than
`lastFrameRef` (the gate only publishes stats while setting `lastFrameRef`
to the publication time). -/
def headLe (st : SysState) : Prop :=
  match statsTimes st.pubs with
  | [] => True
  | t :: _ => t ≤ st.lastFrame

lemma stepEvent_inv (st : SysState) (e : SysEvent)
    (h : StatsGapsOK (statsTimes st.pubs) ∧ headLe st) :
    StatsGapsOK (statsTimes (stepEvent st e).pubs) ∧ headLe (stepEvent st e) := by
  obtain ⟨hg, hh⟩ := h
  cases e with
  | frame now raw intent sprint =>
    simp only [stepEvent]
    split
    · next hc =>
      constructor
      · show StatsGapsOK (now :: statsTimes st.pubs)
        cases hst : statsTimes st.pubs with
        | nil => trivial
        | cons t rest =>
          have ht : t ≤ st.lastFrame := by
            unfold headLe at hh
            rw [hst] at hh
            exact hh
          exact ⟨by linarith, hst ▸ hg⟩
      · show headLe _
        unfold headLe
        exact le_refl now
    · exact ⟨hg, hh⟩
  | click now mode hit =>
    simp only [stepEvent]
    split
    · exact ⟨hg, hh⟩
    · exact ⟨hg, hh⟩

lemma runTrace_inv : ∀ (es : List SysEvent) (st : SysState),
    StatsGapsOK (statsTimes st.pubs) ∧ headLe st →
    StatsGapsOK (statsTimes (runTrace st es).pubs) ∧ headLe (runTrace st es) := by
  intro es
  induction es with
  | nil => intro st h; exact h
  | cons e rest ih => intro st h; exact ih (stepEvent st e) (stepEvent_inv st e h)

/-- C7 (amended): the FPS/camera-position stats publications are throttled —
along any event trace, consecutive stats publications are at least 250ms
apart.  (The block count is *not* throttled: it is published on every
successful edit, see the counterexample.) -/
theorem stats_pub_throttled (events : List SysEvent) (lastFrame0 : ℚ) (mv : MoveState)
    (w : WorldState) :
    StatsGapsOK (statsTimes (runTrace ⟨lastFrame0, mv, w, []⟩ events).pubs) :=
  (runTrace_inv events ⟨lastFrame0, mv, w, []⟩ ⟨trivial, trivial⟩).1

/-- C7 is false as stated for the block count: two successful remove
interactions 100ms apart each publish the registry size immediately, so two
consecutive telemetry publications are less than 250ms apart. -/
theorem blocks_pub_not_throttled_cex :
    (runTrace ⟨0, ⟨0, 0, 0, 3, 0, 0⟩, ⟨[], []⟩, []⟩
        [SysEvent.click 0 .remove (some ⟨none, ⟨0, 1, 0⟩⟩),
         SysEvent.click 100 .remove (some ⟨none, ⟨0, 1, 0⟩⟩)]).pubs
      = [TelemetryPub.blocks 100 0, TelemetryPub.blocks 0 0] ∧
    ¬ ((0:ℚ) + 250 ≤ 100) :=
  ⟨rfl, by norm_num⟩
